import Mathlib

/-!
Verification of the document-renderer core of an AI CV generator
(source: src/app.py).  The renderer consists of the text normalizer
clean_text_for_pdf (app.py lines 120-140) and the markdown-to-document
converter create_cv_pdf (app.py lines 142-236).  Python strings are
embedded as lists of characters; the exact byte content of the source
file is mirrored, including its doubly-encoded punctuation literals
(for example the three-character sequence U+201A U+00C4 U+00A2 that the
source uses as a bullet glyph) and the replacements-table entry arising
from the triple-quoted tokenization of app.py lines 129-130.
-/

namespace AICV

/-- A Python string, embedded as its list of characters. -/
abbrev PyStr := List Char

/-- Membership test for the set of characters stripped by the Python
method str.strip with no arguments (characters whose str.isspace is
true). -/
def isPySpace (c : Char) : Bool :=
  c == ' ' || c == '\t' || c == '\n' || c == '\r' || c == '\x0b' || c == '\x0c' ||
  c == '\x1c' || c == '\x1d' || c == '\x1e' || c == '\x1f' ||
  c == '\x85' || c == '\xa0' || c == ' ' ||
  c == ' ' || c == ' ' || c == ' ' || c == ' ' ||
  c == ' ' || c == ' ' || c == ' ' || c == ' ' ||
  c == ' ' || c == ' ' || c == ' ' ||
  c == ' ' || c == ' ' || c == ' ' || c == ' ' || c == '　'

/-- Removal of trailing whitespace, the right half of str.strip. -/
def stripRight (s : PyStr) : PyStr :=
  (s.reverse.dropWhile isPySpace).reverse

/-- The Python method str.strip with no arguments: remove leading and
trailing whitespace. -/
def pyStrip (s : PyStr) : PyStr :=
  stripRight (s.dropWhile isPySpace)

/-- Fuel-indexed worker for pyReplace; the fuel is an upper bound on the
length of the remaining text, so the zero-fuel arm is never reached when
the function is entered through pyReplace. -/
def pyReplaceFuel (old new : PyStr) : Nat → PyStr → PyStr
  | _, [] => []
  | 0, c :: cs => c :: cs
  | fuel + 1, c :: cs =>
    if old ≠ [] ∧ old.isPrefixOf (c :: cs) then
      new ++ pyReplaceFuel old new fuel (cs.drop (old.length - 1))
    else
      c :: pyReplaceFuel old new fuel cs

/-- The Python method str.replace(old, new): replace every
non-overlapping occurrence of old, scanning left to right. -/
def pyReplace (old new s : PyStr) : PyStr :=
  pyReplaceFuel old new s.length s

/-- The Python method str.split(sep) for a one-character separator, as
used with sep equal to a line break at app.py line 207: empty pieces are
kept, and the empty string yields one empty piece. -/
def pySplitChar (sep : Char) : PyStr → List PyStr
  | [] => [[]]
  | c :: cs =>
    if c == sep then
      [] :: pySplitChar sep cs
    else
      match pySplitChar sep cs with
      | [] => [[c]]
      | f :: fs => (c :: f) :: fs

/-- The Python method str.split(sep, 1) for a one-character separator,
as used at app.py line 195: at most one split, so the result has one or
two pieces. -/
def pySplitOnce (sep : Char) : PyStr → List PyStr
  | [] => [[]]
  | c :: cs =>
    if c == sep then
      [[], cs]
    else
      match pySplitOnce sep cs with
      | [] => [[c]]
      | f :: fs => (c :: f) :: fs

/-- Helper for splitSec: prepend a character to the first piece of a
split result. -/
def consHead (c : Char) : List PyStr → List PyStr
  | [] => [[c]]
  | f :: fs => (c :: f) :: fs

/-- The Python expression content.split(loc) at app.py line 190, where
loc is the four-character separator made of a line break followed by two
hash marks and a space: every non-overlapping occurrence separates two
pieces, scanning left to right, and empty pieces are kept. -/
def splitSec : PyStr → List PyStr
  | '\n' :: '#' :: '#' :: ' ' :: rest => [] :: splitSec rest
  | c :: cs => consHead c (splitSec cs)
  | [] => [[]]

/-- True when the four-character section separator occurs somewhere in
the string; splitSec yields a single piece exactly on strings where this
is false. -/
def hasDelim : PyStr → Bool
  | '\n' :: '#' :: '#' :: ' ' :: _ => true
  | _ :: cs => hasDelim cs
  | [] => false

/-- True when the string starts with the four-character section
separator. -/
def isDelimAt (s : PyStr) : Bool :=
  s.take 4 == ['\n', '#', '#', ' ']

/-- The fields of the user_data dictionary read by create_cv_pdf
(app.py lines 182-184). -/
structure UserData where
  name : PyStr
  email : PyStr
  phone : PyStr
deriving DecidableEq

/-- The flowables appended to the story list of create_cv_pdf: a title
paragraph (CustomTitle style, line 182), a body paragraph (CustomBody
style, lines 183 and 221), a section heading paragraph (CustomHeading
style, line 204), a one-item bullet list (ListFlowable, lines 213-218),
and a spacer (lines 187 and 223). -/
inductive Flowable where
  | title (text : PyStr)
  | body (text : PyStr)
  | heading (text : PyStr)
  | bulletItem (text : PyStr)
  | spacer (w h : Nat)
deriving DecidableEq

/-- The text payload of a flowable; a spacer carries none. -/
def flowText : Flowable → PyStr
  | Flowable.title t => t
  | Flowable.body t => t
  | Flowable.heading t => t
  | Flowable.bulletItem t => t
  | Flowable.spacer _ _ => []

/-- Number of section headings in a flowable list. -/
def countHeadings (fs : List Flowable) : Nat :=
  fs.countP fun f =>
    match f with
    | Flowable.heading _ => true
    | _ => false

/-- The three-character sequence that the source file holds where a
bullet glyph was intended (the UTF-8 bytes of U+2022 decoded a second
time), used at app.py lines 110, 210 and 216. -/
def bulletGlyph : PyStr := ['‚', 'Ä', '¢']

/-- The replacements dictionary of clean_text_for_pdf (app.py lines
123-132), in insertion order.  The first three keys and the last key are
the doubly-encoded forms of the bullet, en dash, em dash and ellipsis
characters.  The fourth entry uses a plain double quote on both sides
(the source lists it twice; a Python dict keeps one entry).  The fifth
entry comes from the tokenization of lines 129-130: the three plain
apostrophes open a triple-quoted string, so the key is the fifteen
characters between them (colon, space, double quote, apostrophe, double
quote, comma, line break, eight spaces) and the value is one
apostrophe. -/
def replacements : List (PyStr × PyStr) :=
  [ (['‚', 'Ä', '¢'], ['-']),
    (['‚', 'Ä', 'ì'], ['-']),
    (['‚', 'Ä', 'î'], ['-']),
    (['"'], ['"']),
    ([':', ' ', '"', '\'', '"', ',', '\n',
      ' ', ' ', ' ', ' ', ' ', ' ', ' ', ' '], ['\'']),
    (['‚', 'Ä', '¶'], ['.', '.', '.']) ]

/-- The function clean_text_for_pdf (app.py lines 120-140): apply the
replacements table in order, then drop every character with code point
at least 128. -/
def clean_text_for_pdf (text : PyStr) : PyStr :=
  (replacements.foldl (fun t p => pyReplace p.1 p.2 t) text).filter
    fun c => c.toNat < 128

/-- The title cleanup of app.py line 201: title.replace(hash, empty)
followed by strip. -/
def titleOf (t : PyStr) : PyStr :=
  pyStrip (pyReplace ['#'] [] t)

/-- The per-line processing of app.py lines 207-221: strip the line;
a blank line yields nothing; a line starting with a dash and a space, or
with the (doubly-encoded) bullet glyph and a space, yields a bullet item
holding the line with its first two characters dropped and stripped; any
other line yields a body paragraph holding the stripped line. -/
def lineBlocks (rawLine : PyStr) : List Flowable :=
  if pyStrip rawLine = [] then []
  else if ['-', ' '].isPrefixOf (pyStrip rawLine) ||
      (bulletGlyph ++ [' ']).isPrefixOf (pyStrip rawLine) then
    [Flowable.bulletItem (pyStrip ((pyStrip rawLine).drop 2))]
  else
    [Flowable.body (pyStrip rawLine)]

/-- The per-fragment processing of app.py lines 192-223: a fragment that
is blank after stripping is skipped; otherwise the stripped fragment is
split once on a line break, and only when that yields two parts is a
section emitted: a heading made from the first part by titleOf, then the
blocks of each line of the stripped second part, then a spacer. -/
def sectionFlowables (sectionText : PyStr) : List Flowable :=
  if pyStrip sectionText = [] then []
  else
    match pySplitOnce '\n' (pyStrip sectionText) with
    | [t, c] =>
      Flowable.heading (titleOf t) ::
        ((pySplitChar '\n' (pyStrip c)).flatMap lineBlocks ++ [Flowable.spacer 1 12])
    | _ => []

/-- The header flowables of app.py lines 182-187: the name as a title,
the email and phone joined with a spaced vertical bar as a body
paragraph, and a spacer. -/
def headerFlows (ud : UserData) : List Flowable :=
  [Flowable.title ud.name,
   Flowable.body (ud.email ++ (' ' :: '|' :: ' ' :: ud.phone)),
   Flowable.spacer 1 12]

/-- The full story list built by create_cv_pdf (app.py lines 179-223):
the header flowables followed by the flowables of every fragment of the
section split, in order.  Note that the loop at line 192 runs over all
fragments, the one before the first separator included. -/
def mkStory (ud : UserData) (content : PyStr) : List Flowable :=
  headerFlows ud ++ (splitSec content).flatMap sectionFlowables

/-- The function create_cv_pdf (app.py lines 142-236), parameterized by
the external layout engine (the reportlab library, an external
collaborator): the engine consumes the story and either returns the
document bytes or fails with a message.  On success the caller receives
the bytes and no UI message is emitted; on failure the except branch at
lines 234-236 emits one UI error message through st.error and returns
None to the caller.  The first component of the result collects the UI
error messages, the second is the caller-visible return value. -/
def create_cv_pdf (build : List Flowable → Except PyStr (List Nat))
    (user_data : UserData) (content : PyStr) : List PyStr × Option (List Nat) :=
  match build (mkStory user_data content) with
  | Except.ok b => ([], some b)
  | Except.error e => (["PDF Generation Error: ".data ++ e], none)

/-- Modelled from the spec: the layout engine itself (reportlab, treated
by the specification as an external collaborator producing a standard
paginated binary document) is not part of the repository source, so its
successful output is modelled as a byte sequence that always begins with
a document header and ends with a trailer, with one rendered line per
flowable in between; any such artifact is nonempty. -/
def buildPdfModel (story : List Flowable) : List Nat :=
  ("%PDF-1.4\n".data.map Char.toNat) ++
    story.flatMap (fun f => (flowText f).map Char.toNat ++ [10]) ++
    ("%%EOF".data.map Char.toNat)

/-- A layout engine that always succeeds, built from the modelled
artifact. -/
def buildOk (story : List Flowable) : Except PyStr (List Nat) :=
  Except.ok (buildPdfModel story)

/-- Sample header record used for concrete instances. -/
def udJane : UserData :=
  { name := "Jane Doe".data, email := "jane@x.com".data, phone := "555-1234".data }

theorem splitSec_cons (c : Char) (cs : PyStr) :
    splitSec (c :: cs) =
      if isDelimAt (c :: cs) then [] :: splitSec (cs.drop 3)
      else consHead c (splitSec cs) := by
  match c, cs with
  | c, [] => by_cases h : c = '\n' <;> simp_all [splitSec, isDelimAt, consHead]
  | c, [a] =>
    by_cases h : c = '\n' <;> by_cases ha : a = '#' <;>
      simp_all [splitSec, isDelimAt, consHead]
  | c, [a, b] =>
    by_cases h : c = '\n' <;> by_cases ha : a = '#' <;> by_cases hb : b = '#' <;>
      simp_all [splitSec, isDelimAt, consHead]
  | c, a :: b :: d :: t =>
    by_cases h : c = '\n' <;> by_cases ha : a = '#' <;> by_cases hb : b = '#' <;>
      by_cases hd : d = ' ' <;>
      simp_all [splitSec, isDelimAt, consHead]

theorem hasDelim_cons (c : Char) (cs : PyStr) :
    hasDelim (c :: cs) = (isDelimAt (c :: cs) || hasDelim cs) := by
  match c, cs with
  | c, [] => by_cases h : c = '\n' <;> simp_all [hasDelim, isDelimAt]
  | c, [a] =>
    by_cases h : c = '\n' <;> by_cases ha : a = '#' <;>
      simp_all [hasDelim, isDelimAt]
  | c, [a, b] =>
    by_cases h : c = '\n' <;> by_cases ha : a = '#' <;> by_cases hb : b = '#' <;>
      simp_all [hasDelim, isDelimAt]
  | c, a :: b :: d :: t =>
    by_cases h : c = '\n' <;> by_cases ha : a = '#' <;> by_cases hb : b = '#' <;>
      by_cases hd : d = ' ' <;>
      simp_all [hasDelim, isDelimAt]

theorem hasDelim_cons_false {c : Char} {cs : PyStr} (h : hasDelim (c :: cs) = false) :
    isDelimAt (c :: cs) = false ∧ hasDelim cs = false := by
  rw [hasDelim_cons] at h
  exact Bool.or_eq_false_iff.mp h

theorem splitSec_of_no_delim {s : PyStr} (h : hasDelim s = false) :
    splitSec s = [s] := by
  induction s with
  | nil => rfl
  | cons c cs ih =>
    obtain ⟨h1, h2⟩ := hasDelim_cons_false h
    rw [splitSec_cons, h1]
    simp [ih h2, consHead]

theorem splitSec_boundary {pre : PyStr} (rest : PyStr)
    (h : hasDelim pre = false) :
    splitSec (pre ++ '\n' :: '#' :: '#' :: ' ' :: rest) = pre :: splitSec rest := by
  induction pre with
  | nil => rfl
  | cons c p ih =>
    obtain ⟨h1, h2⟩ := hasDelim_cons_false h
    have hfalse : isDelimAt (c :: (p ++ '\n' :: '#' :: '#' :: ' ' :: rest)) = false := by
      match p with
      | [] => simp [isDelimAt]
      | [a] => simp [isDelimAt]
      | [a, b] => simp [isDelimAt]
      | a :: b :: d :: t =>
        simpa [isDelimAt] using h1
    rw [List.cons_append, splitSec_cons, hfalse, ih h2]
    rfl

theorem isDelimAt_false_iff (s : PyStr) :
    isDelimAt s = false ↔ s.take 4 ≠ ['\n', '#', '#', ' '] := by
  constructor
  · intro h hEq
    simp [isDelimAt, hEq] at h
  · intro h
    simpa [isDelimAt, beq_eq_false_iff_ne] using h

theorem isDelimAt_false_of_head {c : Char} (cs : PyStr) (h : c ≠ '\n') :
    isDelimAt (c :: cs) = false := by
  rw [isDelimAt_false_iff]
  intro hEq
  rw [List.take_succ_cons] at hEq
  injection hEq with h1 _
  exact h h1

theorem isDelimAt_newline_false {cs : PyStr} (h : cs.take 3 ≠ ['#', '#', ' ']) :
    isDelimAt ('\n' :: cs) = false := by
  rw [isDelimAt_false_iff]
  intro hEq
  rw [List.take_succ_cons] at hEq
  injection hEq with _ h2
  exact h h2

theorem newline_mem_of_isDelimAt {s : PyStr} (h : isDelimAt s = true) : '\n' ∈ s := by
  have ht : s.take 4 = ['\n', '#', '#', ' '] := by
    simpa [isDelimAt] using h
  have hm : '\n' ∈ s.take 4 := by rw [ht]; simp
  exact List.take_subset 4 s hm

theorem hash_mem_of_isDelimAt {s : PyStr} (h : isDelimAt s = true) : '#' ∈ s := by
  have ht : s.take 4 = ['\n', '#', '#', ' '] := by
    simpa [isDelimAt] using h
  have hm : '#' ∈ s.take 4 := by rw [ht]; simp
  exact List.take_subset 4 s hm

theorem hasDelim_false_of_no_newline {s : PyStr} (h : '\n' ∉ s) :
    hasDelim s = false := by
  induction s with
  | nil => rfl
  | cons c cs ih =>
    rw [hasDelim_cons, Bool.or_eq_false_iff]
    refine ⟨?_, ih fun hm => h (List.mem_cons_of_mem c hm)⟩
    by_contra hx
    have hx2 : isDelimAt (c :: cs) = true := by
      revert hx; cases isDelimAt (c :: cs) <;> simp
    exact h (newline_mem_of_isDelimAt hx2)

theorem hasDelim_false_of_all_space {s : PyStr}
    (h : ∀ c ∈ s, isPySpace c = true) : hasDelim s = false := by
  induction s with
  | nil => rfl
  | cons c cs ih =>
    rw [hasDelim_cons, Bool.or_eq_false_iff]
    refine ⟨?_, ih fun x hx => h x (List.mem_cons_of_mem c hx)⟩
    by_contra hx
    have hx2 : isDelimAt (c :: cs) = true := by
      revert hx; cases isDelimAt (c :: cs) <;> simp
    have := h '#' (hash_mem_of_isDelimAt hx2)
    simp [isPySpace] at this

theorem dropWhile_append_left {p : Char → Bool} {l₁ : PyStr} (l₂ : PyStr)
    (h : l₁.dropWhile p ≠ []) :
    (l₁ ++ l₂).dropWhile p = l₁.dropWhile p ++ l₂ := by
  induction l₁ with
  | nil => simp at h
  | cons c cs ih =>
    by_cases hc : p c
    · rw [List.cons_append]
      simp only [List.dropWhile_cons, hc, if_true] at h ⊢
      exact ih h
    · rw [List.cons_append, List.dropWhile_cons, List.dropWhile_cons]
      simp [hc]

theorem dropWhile_ne_nil_of_exists {p : Char → Bool} {l : PyStr}
    (h : ∃ c ∈ l, p c = false) : l.dropWhile p ≠ [] := by
  obtain ⟨c, hc, hpc⟩ := h
  intro hnil
  have := List.dropWhile_eq_nil_iff.mp hnil c hc
  rw [hpc] at this
  exact Bool.false_ne_true this

theorem stripRight_append {a b : PyStr} (hb : ∃ c ∈ b, isPySpace c = false) :
    stripRight (a ++ b) = a ++ stripRight b := by
  have hne : b.reverse.dropWhile isPySpace ≠ [] := by
    apply dropWhile_ne_nil_of_exists
    obtain ⟨c, hc, hpc⟩ := hb
    exact ⟨c, List.mem_reverse.mpr hc, hpc⟩
  unfold stripRight
  rw [List.reverse_append, dropWhile_append_left _ hne, List.reverse_append,
    List.reverse_reverse]

theorem stripRight_length_le (t : PyStr) : (stripRight t).length ≤ t.length := by
  have h1 : (t.reverse.dropWhile isPySpace).length ≤ t.reverse.length :=
    (List.dropWhile_sublist isPySpace).length_le
  unfold stripRight
  simpa using h1

theorem strip_self_parts {s : PyStr} (h : pyStrip s = s) :
    s.dropWhile isPySpace = s ∧ stripRight s = s := by
  have hle1 : (s.dropWhile isPySpace).length ≤ s.length :=
    (List.dropWhile_sublist isPySpace).length_le
  have hle2 : (pyStrip s).length ≤ (s.dropWhile isPySpace).length := by
    unfold pyStrip
    exact stripRight_length_le _
  have hlen : (s.dropWhile isPySpace).length = s.length := by
    have := congrArg List.length h
    omega
  have hdw : s.dropWhile isPySpace = s :=
    (List.dropWhile_sublist isPySpace).eq_of_length hlen
  refine ⟨hdw, ?_⟩
  have hsr : stripRight s = pyStrip s := by
    unfold pyStrip
    rw [hdw]
  rw [hsr, h]

theorem exists_nonspace_of_strip_self {s : PyStr} (h : pyStrip s = s)
    (hne : s ≠ []) : ∃ c ∈ s, isPySpace c = false := by
  by_contra hall
  push_neg at hall
  have hall2 : ∀ c ∈ s, isPySpace c = true := by
    intro c hc
    have := hall c hc
    revert this
    cases isPySpace c <;> simp
  have hdw : s.dropWhile isPySpace = [] :=
    List.dropWhile_eq_nil_iff.mpr hall2
  have : pyStrip s = [] := by
    unfold pyStrip
    rw [hdw]
    rfl
  rw [h] at this
  exact hne this

theorem mem_dropWhile_of_exists {p : Char → Bool} {l : PyStr}
    (h : ∃ c ∈ l, p c = false) : ∃ c ∈ l.dropWhile p, p c = false := by
  induction l with
  | nil => simp at h
  | cons a l ih =>
    obtain ⟨c, hc, hpc⟩ := h
    by_cases hpa : p a
    · rw [List.dropWhile_cons]
      simp only [hpa, if_true]
      apply ih
      rcases List.mem_cons.mp hc with h1 | h1
      · rw [h1] at hpc; rw [hpc] at hpa; exact absurd hpa (by simp)
      · exact ⟨c, h1, hpc⟩
    · rw [List.dropWhile_cons]
      simp only [hpa, if_false]
      exact ⟨c, hc, hpc⟩

theorem all_space_of_strip_nil {s : PyStr} (h : pyStrip s = []) :
    ∀ c ∈ s, isPySpace c = true := by
  by_contra hall
  push_neg at hall
  obtain ⟨c, hc, hpc⟩ := hall
  have hpc2 : isPySpace c = false := by
    revert hpc; cases isPySpace c <;> simp
  have h1 : ∃ x ∈ s.dropWhile isPySpace, isPySpace x = false :=
    mem_dropWhile_of_exists ⟨c, hc, hpc2⟩
  have h2 : stripRight (s.dropWhile isPySpace) ≠ [] := by
    unfold stripRight
    obtain ⟨x, hx, hpx⟩ := h1
    intro hnil
    have : (s.dropWhile isPySpace).reverse.dropWhile isPySpace = [] := by
      have := congrArg List.reverse hnil
      simpa using this
    have := List.dropWhile_eq_nil_iff.mp this x (List.mem_reverse.mpr hx)
    rw [hpx] at this
    exact Bool.false_ne_true this
  exact h2 h

theorem pySplitChar_no_sep {sep : Char} {s : PyStr} (h : sep ∉ s) :
    pySplitChar sep s = [s] := by
  induction s with
  | nil => rfl
  | cons c cs ih =>
    have hc : (c == sep) = false := by
      simp only [List.mem_cons, not_or] at h
      exact beq_eq_false_iff_ne.mpr fun he => h.1 (he ▸ rfl)
    have hcs : sep ∉ cs := by
      simp only [List.mem_cons, not_or] at h
      exact h.2
    simp [pySplitChar, hc, ih hcs]

theorem pySplitOnce_boundary {sep : Char} {a : PyStr} (m : PyStr) (h : sep ∉ a) :
    pySplitOnce sep (a ++ sep :: m) = [a, m] := by
  induction a with
  | nil => simp [pySplitOnce]
  | cons c cs ih =>
    have hc : (c == sep) = false := by
      simp only [List.mem_cons, not_or] at h
      exact beq_eq_false_iff_ne.mpr fun he => h.1 (he ▸ rfl)
    have hcs : sep ∉ cs := by
      simp only [List.mem_cons, not_or] at h
      exact h.2
    simp [pySplitOnce, hc, ih hcs]

theorem subset_of_isPrefixOf :
    ∀ {l₁ l₂ : PyStr}, l₁.isPrefixOf l₂ = true → ∀ c ∈ l₁, c ∈ l₂ := by
  intro l₁
  induction l₁ with
  | nil => intro l₂ h c hc; simp at hc
  | cons a as ih =>
    intro l₂ h c hc
    cases l₂ with
    | nil => simp [List.isPrefixOf] at h
    | cons b bs =>
      simp only [List.isPrefixOf, Bool.and_eq_true, beq_iff_eq] at h
      rcases List.mem_cons.mp hc with h1 | h1
      · rw [h1, h.1]; exact List.mem_cons_self b bs
      · exact List.mem_cons_of_mem b (ih h.2 c h1)

theorem pyReplaceFuel_skip {old new : PyStr} {P : Char → Prop}
    (hbad : ∃ c ∈ old, ¬ P c) :
    ∀ fuel s, (∀ c ∈ s, P c) → pyReplaceFuel old new fuel s = s := by
  intro fuel
  induction fuel with
  | zero => intro s _; cases s <;> rfl
  | succ n ih =>
    intro s hs
    cases s with
    | nil => rfl
    | cons c cs =>
      have hpre : ¬(old ≠ [] ∧ old.isPrefixOf (c :: cs) = true) := by
        rintro ⟨-, hp⟩
        obtain ⟨b, hb, hnb⟩ := hbad
        exact hnb (hs b (subset_of_isPrefixOf hp b hb))
      simp only [pyReplaceFuel]
      rw [if_neg hpre]
      exact congrArg (c :: ·) (ih cs fun x hx => hs x (List.mem_cons_of_mem c hx))

theorem pyReplace_skip {old new s : PyStr} {P : Char → Prop}
    (hbad : ∃ c ∈ old, ¬ P c) (hs : ∀ c ∈ s, P c) :
    pyReplace old new s = s :=
  pyReplaceFuel_skip hbad s.length s hs

theorem pyReplaceFuel_erase (a : Char) :
    ∀ fuel s, s.length ≤ fuel →
      pyReplaceFuel [a] [] fuel s = s.filter (fun c => !(c == a)) := by
  intro fuel
  induction fuel with
  | zero =>
    intro s h
    cases s with
    | nil => rfl
    | cons c cs => simp at h
  | succ n ih =>
    intro s h
    cases s with
    | nil => rfl
    | cons c cs =>
      have hlen : cs.length ≤ n := by
        simp only [List.length_cons] at h
        omega
      by_cases hc : c = a
      · subst hc
        have hpre : ([c] : PyStr) ≠ [] ∧ ([c] : PyStr).isPrefixOf (c :: cs) = true :=
          ⟨by simp, by simp [List.isPrefixOf]⟩
        simp only [pyReplaceFuel]
        rw [if_pos hpre]
        simp only [List.length_singleton, Nat.sub_self, List.drop_zero, List.nil_append]
        rw [ih cs hlen]
        simp [List.filter_cons]
      · have hpre : ¬(([a] : PyStr) ≠ [] ∧ ([a] : PyStr).isPrefixOf (c :: cs) = true) := by
          rintro ⟨-, hp⟩
          simp only [List.isPrefixOf, Bool.and_eq_true, beq_iff_eq] at hp
          exact hc hp.1.symm
        simp only [pyReplaceFuel]
        rw [if_neg hpre]
        rw [ih cs hlen]
        have hbe : (c == a) = false := beq_eq_false_iff_ne.mpr hc
        simp [List.filter_cons, hbe]

theorem pyReplace_erase (a : Char) (s : PyStr) :
    pyReplace [a] [] s = s.filter (fun c => !(c == a)) :=
  pyReplaceFuel_erase a s.length s le_rfl

theorem pyReplaceFuel_self (a : Char) :
    ∀ fuel s, s.length ≤ fuel → pyReplaceFuel [a] [a] fuel s = s := by
  intro fuel
  induction fuel with
  | zero =>
    intro s h
    cases s with
    | nil => rfl
    | cons c cs => simp at h
  | succ n ih =>
    intro s h
    cases s with
    | nil => rfl
    | cons c cs =>
      have hlen : cs.length ≤ n := by
        simp only [List.length_cons] at h
        omega
      by_cases hc : c = a
      · subst hc
        have hpre : ([c] : PyStr) ≠ [] ∧ ([c] : PyStr).isPrefixOf (c :: cs) = true :=
          ⟨by simp, by simp [List.isPrefixOf]⟩
        simp only [pyReplaceFuel]
        rw [if_pos hpre]
        simp only [List.length_singleton, Nat.sub_self, List.drop_zero]
        rw [ih cs hlen]
        rfl
      · have hpre : ¬(([a] : PyStr) ≠ [] ∧ ([a] : PyStr).isPrefixOf (c :: cs) = true) := by
          rintro ⟨-, hp⟩
          simp only [List.isPrefixOf, Bool.and_eq_true, beq_iff_eq] at hp
          exact hc hp.1.symm
        simp only [pyReplaceFuel]
        rw [if_neg hpre]
        rw [ih cs hlen]

theorem pyReplace_self (a : Char) (s : PyStr) : pyReplace [a] [a] s = s :=
  pyReplaceFuel_self a s.length s le_rfl

theorem countHeadings_append (l₁ l₂ : List Flowable) :
    countHeadings (l₁ ++ l₂) = countHeadings l₁ + countHeadings l₂ :=
  List.countP_append _ _ _

theorem countHeadings_lineBlocks (l : PyStr) : countHeadings (lineBlocks l) = 0 := by
  unfold lineBlocks
  split
  · rfl
  · split
    · rfl
    · rfl

theorem countHeadings_flatMap (ls : List PyStr) :
    countHeadings (ls.flatMap lineBlocks) = 0 := by
  induction ls with
  | nil => rfl
  | cons l ls ih =>
    rw [List.flatMap_cons, countHeadings_append, countHeadings_lineBlocks, ih]

theorem countHeadings_cons_heading (x : PyStr) (l : List Flowable) :
    countHeadings (Flowable.heading x :: l) = countHeadings l + 1 := by
  simp [countHeadings, List.countP_cons]

theorem countHeadings_sectionFlowables (s : PyStr) :
    countHeadings (sectionFlowables s) ≤ 1 := by
  unfold sectionFlowables
  split
  · simp [countHeadings]
  · split
    · rw [countHeadings_cons_heading, countHeadings_append, countHeadings_flatMap]
      simp [countHeadings]
    · simp [countHeadings]

theorem mkStory_no_delim (ud : UserData) {content : PyStr}
    (h : hasDelim content = false) :
    mkStory ud content = headerFlows ud ++ sectionFlowables content := by
  unfold mkStory
  rw [splitSec_of_no_delim h]
  simp

theorem mkStory_single (ud : UserData) (line : PyStr)
    (h1 : pyStrip line = line) (h2 : line ≠ [])
    (h3 : '\n' ∉ line) (h4 : line.take 3 ≠ ['#', '#', ' ']) :
    mkStory ud ("## T\n".data ++ line) =
      headerFlows ud ++
        (Flowable.heading ['T'] :: (lineBlocks line ++ [Flowable.spacer 1 12])) := by
  have hnd : hasDelim ("## T\n".data ++ line) = false := by
    show hasDelim ('#' :: '#' :: ' ' :: 'T' :: '\n' :: line) = false
    rw [hasDelim_cons, hasDelim_cons, hasDelim_cons, hasDelim_cons, hasDelim_cons]
    rw [isDelimAt_false_of_head _ (by decide),
        isDelimAt_false_of_head _ (by decide),
        isDelimAt_false_of_head _ (by decide),
        isDelimAt_false_of_head _ (by decide),
        isDelimAt_newline_false h4,
        hasDelim_false_of_no_newline h3]
    rfl
  have hnsp : ∃ c ∈ line, isPySpace c = false := exists_nonspace_of_strip_self h1 h2
  have hsrl : stripRight line = line := (strip_self_parts h1).2
  have hstrip : pyStrip ("## T\n".data ++ line) = "## T\n".data ++ line := by
    show pyStrip (['#', '#', ' ', 'T', '\n'] ++ line) = ['#', '#', ' ', 'T', '\n'] ++ line
    unfold pyStrip
    rw [show (['#', '#', ' ', 'T', '\n'] ++ line).dropWhile isPySpace =
        ['#', '#', ' ', 'T', '\n'] ++ line by
      rw [List.cons_append, List.dropWhile_cons]
      simp [isPySpace]]
    rw [stripRight_append hnsp, hsrl]
  have honce : pySplitOnce '\n' ("## T\n".data ++ line) = [['#', '#', ' ', 'T'], line] := by
    show pySplitOnce '\n' (['#', '#', ' ', 'T'] ++ '\n' :: line) = _
    exact pySplitOnce_boundary line (by decide)
  have hchar : pySplitChar '\n' (pyStrip line) = [line] := by
    rw [h1]
    exact pySplitChar_no_sep h3
  have hsec : sectionFlowables ("## T\n".data ++ line) =
      Flowable.heading ['T'] :: (lineBlocks line ++ [Flowable.spacer 1 12]) := by
    unfold sectionFlowables
    rw [hstrip]
    rw [if_neg (by simp : ¬("## T\n".data ++ line = []))]
    rw [honce]
    show Flowable.heading (titleOf ['#', '#', ' ', 'T']) ::
        ((pySplitChar '\n' (pyStrip line)).flatMap lineBlocks ++ [Flowable.spacer 1 12]) =
      Flowable.heading ['T'] :: (lineBlocks line ++ [Flowable.spacer 1 12])
    rw [hchar]
    rw [show titleOf ['#', '#', ' ', 'T'] = ['T'] from by decide]
    simp
  rw [mkStory_no_delim ud hnd, hsec]

theorem pySplitOnce_no_sep {sep : Char} {s : PyStr} (h : sep ∉ s) :
    pySplitOnce sep s = [s] := by
  induction s with
  | nil => rfl
  | cons c cs ih =>
    have hc : (c == sep) = false := by
      simp only [List.mem_cons, not_or] at h
      exact beq_eq_false_iff_ne.mpr fun he => h.1 (he ▸ rfl)
    have hcs : sep ∉ cs := by
      simp only [List.mem_cons, not_or] at h
      exact h.2
    simp [pySplitOnce, hc, ih hcs]

/-- C1 counterexample: the body made of the single word Hello contains no
heading delimiter, yet the produced document contains zero sections and no
paragraph holding the body, rather than the claimed single section with the
entire trimmed body as one paragraph. -/
theorem C1_counterexample :
    hasDelim "Hello".data = false ∧
    countHeadings (mkStory udJane "Hello".data) = 0 ∧
    Flowable.body "Hello".data ∉ mkStory udJane "Hello".data := by
  refine ⟨by decide, by decide, by decide⟩

/-- C1 (amended): for a body with zero heading delimiters the whole body is
processed as the single split fragment, so the document is the header block
followed by the flowables of that one fragment, and those flowables contain
at most one section heading (zero when the trimmed body has no line break,
since a one-part split emits nothing); no error is possible. -/
theorem C1_no_delimiter (ud : UserData) (content : PyStr)
    (h : hasDelim content = false) :
    mkStory ud content = headerFlows ud ++ sectionFlowables content ∧
    countHeadings (sectionFlowables content) ≤ 1 :=
  ⟨mkStory_no_delim ud h, countHeadings_sectionFlowables content⟩

/-- C1 witness: the amended statement instantiated at a concrete two-line
body with no delimiter. -/
theorem C1_no_delimiter_witness :
    hasDelim "A\nB".data = false ∧
    (mkStory udJane "A\nB".data = headerFlows udJane ++ sectionFlowables "A\nB".data ∧
     countHeadings (sectionFlowables "A\nB".data) ≤ 1) :=
  ⟨by decide, C1_no_delimiter udJane "A\nB".data (by decide)⟩

/-- C2 counterexample: create_cv_pdf never invokes clean_text_for_pdf, so a
body holding the em-dash key of the substitution table yields a story whose
text still contains characters with code point at least 128, although the
table itself would have replaced that key by a plain dash. -/
theorem C2_counterexample :
    (mkStory udJane ("## T\n".data ++ ['‚', 'Ä', 'î', ' ', 'x'])).any
      (fun f => (flowText f).any (fun c => 128 ≤ c.toNat)) = true ∧
    clean_text_for_pdf ['‚', 'Ä', 'î', ' ', 'x'] = "- x".data := by
  refine ⟨by decide, by decide⟩

/-- C2 (amended): the renderer applies no normalization at any stage: a
trimmed content line with no line break, no leading heading marks and no
bullet marker is emitted under its heading as a paragraph equal to the raw
line, so smart punctuation and characters with code point at least 128 reach
the document unchanged. -/
theorem C2_no_normalization (ud : UserData) (line : PyStr)
    (h1 : pyStrip line = line) (h2 : line ≠ []) (h3 : '\n' ∉ line)
    (h4 : line.take 3 ≠ ['#', '#', ' '])
    (h5 : ['-', ' '].isPrefixOf line = false)
    (h6 : (bulletGlyph ++ [' ']).isPrefixOf line = false) :
    mkStory ud ("## T\n".data ++ line) =
      headerFlows ud ++
        [Flowable.heading ['T'], Flowable.body line, Flowable.spacer 1 12] := by
  rw [mkStory_single ud line h1 h2 h3 h4]
  have hlb : lineBlocks line = [Flowable.body line] := by
    unfold lineBlocks
    rw [h1, if_neg h2, h5, h6]
    simp
  rw [hlb]
  rfl

/-- C2 witness: the amended statement instantiated at a line starting with
the doubly-encoded em dash of the substitution table. -/
theorem C2_no_normalization_witness :
    pyStrip ['‚', 'Ä', 'î', 'd'] = ['‚', 'Ä', 'î', 'd'] ∧
    mkStory udJane ("## T\n".data ++ ['‚', 'Ä', 'î', 'd']) =
      headerFlows udJane ++
        [Flowable.heading ['T'], Flowable.body ['‚', 'Ä', 'î', 'd'],
         Flowable.spacer 1 12] :=
  ⟨by decide, C2_no_normalization udJane ['‚', 'Ä', 'î', 'd'] (by decide) (by decide)
    (by decide) (by decide) (by decide) (by decide)⟩

/-- C3 counterexample: with a non-blank multi-line preamble before the first
heading delimiter, the preamble is not discarded: its first line becomes a
section heading and its second line becomes a paragraph of the document. -/
theorem C3_counterexample :
    Flowable.heading "intro".data ∈ mkStory udJane "intro\nstuff\n## Skills\n- Go".data ∧
    Flowable.body "stuff".data ∈ mkStory udJane "intro\nstuff\n## Skills\n- Go".data := by
  refine ⟨by decide, by decide⟩

/-- C3 (amended): the first split fragment is processed by exactly the same
per-fragment routine as every later fragment: for a preamble free of the
delimiter, the split yields the preamble as its first fragment and the story
contains the flowables computed from the preamble, followed by those of the
remaining fragments.  A preamble only vanishes when that routine emits
nothing for it (blank, or no line break after trimming). -/
theorem C3_first_fragment_processed (ud : UserData) (pre rest : PyStr)
    (h : hasDelim pre = false) :
    splitSec (pre ++ '\n' :: '#' :: '#' :: ' ' :: rest) = pre :: splitSec rest ∧
    mkStory ud (pre ++ '\n' :: '#' :: '#' :: ' ' :: rest) =
      headerFlows ud ++
        (sectionFlowables pre ++ (splitSec rest).flatMap sectionFlowables) := by
  refine ⟨splitSec_boundary rest h, ?_⟩
  unfold mkStory
  rw [splitSec_boundary rest h]
  simp

/-- C3 witness: the amended statement instantiated at a concrete two-line
preamble. -/
theorem C3_first_fragment_processed_witness :
    splitSec ("a\nb".data ++ '\n' :: '#' :: '#' :: ' ' :: "S\nc".data) =
      "a\nb".data :: splitSec "S\nc".data ∧
    mkStory udJane ("a\nb".data ++ '\n' :: '#' :: '#' :: ' ' :: "S\nc".data) =
      headerFlows udJane ++
        (sectionFlowables "a\nb".data ++
          (splitSec "S\nc".data).flatMap sectionFlowables) :=
  C3_first_fragment_processed udJane "a\nb".data "S\nc".data (by decide)

/-- C4 counterexample: on an internal failure the caller receives None, a
failure value that is identical for two distinct failure reasons and hence
carries no reason string. -/
theorem C4_counterexample :
    (create_cv_pdf (fun _ => Except.error ['A']) udJane []).2 = none ∧
    (create_cv_pdf (fun _ => Except.error ['A']) udJane []).2 =
      (create_cv_pdf (fun _ => Except.error ['B']) udJane []).2 := by
  refine ⟨by decide, by decide⟩

/-- C4 (amended): create_cv_pdf never lets an internal failure propagate:
whenever the layout engine fails with a reason, the function returns None to
the caller and emits exactly one UI error message holding the reason. -/
theorem C4_failure_becomes_none (build : List Flowable → Except PyStr (List Nat))
    (ud : UserData) (content : PyStr) (e : PyStr)
    (h : build (mkStory ud content) = Except.error e) :
    create_cv_pdf build ud content = (["PDF Generation Error: ".data ++ e], none) := by
  unfold create_cv_pdf
  rw [h]

/-- C4 witness: the amended statement instantiated at a concrete failing
layout engine. -/
theorem C4_failure_becomes_none_witness :
    create_cv_pdf (fun _ => Except.error "boom".data) udJane "## A\nb".data =
      (["PDF Generation Error: ".data ++ "boom".data], none) :=
  C4_failure_becomes_none (fun _ => Except.error "boom".data) udJane
    "## A\nb".data "boom".data rfl

/-- C5 counterexample: a non-blank trimmed line that does not begin with a
dash and a space, but begins with the doubly-encoded bullet glyph and a
space, is emitted as a bullet item and not as a paragraph with the full
trimmed line; only the first two of the four marker characters are removed,
leaving a stray character in the bullet text. -/
theorem C5_counterexample :
    pyStrip ['‚', 'Ä', '¢', ' ', 'x'] = ['‚', 'Ä', '¢', ' ', 'x'] ∧
    ['-', ' '].isPrefixOf ['‚', 'Ä', '¢', ' ', 'x'] = false ∧
    lineBlocks ['‚', 'Ä', '¢', ' ', 'x'] = [Flowable.bulletItem ['¢', ' ', 'x']] := by
  refine ⟨by decide, by decide, by decide⟩

/-- C5 (amended): for a trimmed non-blank content line under a heading, a
line beginning with a dash and a space, or with the doubly-encoded bullet
glyph and a space, becomes a bullet item holding the line with its first two
characters removed and stripped; every other line becomes a paragraph with
the full trimmed line. -/
theorem C5_line_blocks (ud : UserData) (line : PyStr)
    (h1 : pyStrip line = line) (h2 : line ≠ []) (h3 : '\n' ∉ line)
    (h4 : line.take 3 ≠ ['#', '#', ' ']) :
    mkStory ud ("## T\n".data ++ line) =
      headerFlows ud ++
        (Flowable.heading ['T'] ::
          ((if ['-', ' '].isPrefixOf line || (bulletGlyph ++ [' ']).isPrefixOf line then
              [Flowable.bulletItem (pyStrip (line.drop 2))]
            else
              [Flowable.body line]) ++ [Flowable.spacer 1 12])) := by
  rw [mkStory_single ud line h1 h2 h3 h4]
  have hlb : lineBlocks line =
      (if ['-', ' '].isPrefixOf line || (bulletGlyph ++ [' ']).isPrefixOf line then
        [Flowable.bulletItem (pyStrip (line.drop 2))]
      else [Flowable.body line]) := by
    unfold lineBlocks
    rw [h1, if_neg h2]
  rw [hlb]

/-- C5 witness: the amended statement instantiated at a concrete dash-marked
bullet line. -/
theorem C5_line_blocks_witness :
    mkStory udJane ("## T\n".data ++ "- Go".data) =
      headerFlows udJane ++
        (Flowable.heading ['T'] ::
          ((if ['-', ' '].isPrefixOf "- Go".data ||
               (bulletGlyph ++ [' ']).isPrefixOf "- Go".data then
              [Flowable.bulletItem (pyStrip ("- Go".data.drop 2))]
            else
              [Flowable.body "- Go".data]) ++ [Flowable.spacer 1 12])) :=
  C5_line_blocks udJane "- Go".data (by decide) (by decide) (by decide) (by decide)

/-- C6 counterexample: a heading whose title text contains an interior hash
character loses it: the section title in the document is the first line with
every hash removed, not only the leading ones. -/
theorem C6_counterexample :
    Flowable.heading "C Skills".data ∈ mkStory udJane "## C# Skills\nx y".data ∧
    Flowable.heading "C# Skills".data ∉ mkStory udJane "## C# Skills\nx y".data := by
  refine ⟨by decide, by decide⟩

/-- C6 (amended): the section title is the first line of the fragment with
every hash character removed, interior occurrences included, then stripped of
surrounding whitespace. -/
theorem C6_title_removes_all_hashes (t : PyStr) :
    titleOf t = pyStrip (t.filter (fun c => !(c == '#'))) := by
  unfold titleOf
  rw [pyReplace_erase]

/-- C7: a body that is blank after trimming yields a document holding only
the header block (name title, email and phone subtitle) and zero section
headings; the layout engine is invoked on that story and the returned
artifact is nonempty bytes with no failure and no UI error message. -/
theorem C7_blank_body (ud : UserData) (content : PyStr)
    (h : pyStrip content = []) :
    mkStory ud content = headerFlows ud ∧
    create_cv_pdf buildOk ud content = ([], some (buildPdfModel (headerFlows ud))) ∧
    0 < (buildPdfModel (headerFlows ud)).length ∧
    countHeadings (headerFlows ud) = 0 := by
  have hall : ∀ c ∈ content, isPySpace c = true := all_space_of_strip_nil h
  have hnd : hasDelim content = false := hasDelim_false_of_all_space hall
  have hsec : sectionFlowables content = [] := by
    unfold sectionFlowables
    rw [if_pos h]
  have hstory : mkStory ud content = headerFlows ud := by
    rw [mkStory_no_delim ud hnd, hsec]
    simp
  refine ⟨hstory, ?_, ?_, ?_⟩
  · unfold create_cv_pdf buildOk
    rw [hstory]
  · simp [buildPdfModel]
  · rfl

/-- C7 witness: the statement instantiated at a whitespace-only body. -/
theorem C7_blank_body_witness :
    pyStrip " \n ".data = [] ∧
    (mkStory udJane " \n ".data = headerFlows udJane ∧
     create_cv_pdf buildOk udJane " \n ".data =
       ([], some (buildPdfModel (headerFlows udJane))) ∧
     0 < (buildPdfModel (headerFlows udJane)).length ∧
     countHeadings (headerFlows udJane) = 0) :=
  ⟨by decide, C7_blank_body udJane " \n ".data (by decide)⟩

/-- C8 counterexample: on an internal failure create_cv_pdf emits a UI error
message through st.error, so the function is not free of UI interaction. -/
theorem C8_counterexample :
    (create_cv_pdf (fun _ => Except.error "layout failed".data) udJane
      "## A\nb".data).1 ≠ [] := by
  decide

/-- C8 (amended): create_cv_pdf is a function of the header record, the body
and the layout engine, and it emits a UI error message exactly when the
layout engine fails on the story; on success it performs no UI
interaction. -/
theorem C8_ui_message_iff_failure (build : List Flowable → Except PyStr (List Nat))
    (ud : UserData) (content : PyStr) :
    (create_cv_pdf build ud content).1 ≠ [] ↔
      ∃ e, build (mkStory ud content) = Except.error e := by
  unfold create_cv_pdf
  cases hb : build (mkStory ud content) with
  | ok b => simp
  | error e => simp

/-- C9: on a string of printable ASCII characters every key of the
substitution table either contains a character outside printable ASCII or is
replaced by itself, and the final filter keeps every character, so
clean_text_for_pdf returns the identical string. -/
theorem C9_clean_idempotent (s : PyStr)
    (h : ∀ c ∈ s, 32 ≤ c.toNat ∧ c.toNat ≤ 126) :
    clean_text_for_pdf s = s := by
  have hb1 : ∃ c ∈ (['‚', 'Ä', '¢'] : PyStr), ¬(32 ≤ c.toNat ∧ c.toNat ≤ 126) :=
    ⟨'‚', by decide, by decide⟩
  have hb2 : ∃ c ∈ (['‚', 'Ä', 'ì'] : PyStr), ¬(32 ≤ c.toNat ∧ c.toNat ≤ 126) :=
    ⟨'‚', by decide, by decide⟩
  have hb3 : ∃ c ∈ (['‚', 'Ä', 'î'] : PyStr), ¬(32 ≤ c.toNat ∧ c.toNat ≤ 126) :=
    ⟨'‚', by decide, by decide⟩
  have hb5 : ∃ c ∈ ([':', ' ', '"', '\'', '"', ',', '\n',
      ' ', ' ', ' ', ' ', ' ', ' ', ' ', ' '] : PyStr),
      ¬(32 ≤ c.toNat ∧ c.toNat ≤ 126) :=
    ⟨'\n', by decide, by decide⟩
  have hb6 : ∃ c ∈ (['‚', 'Ä', '¶'] : PyStr), ¬(32 ≤ c.toNat ∧ c.toNat ≤ 126) :=
    ⟨'‚', by decide, by decide⟩
  unfold clean_text_for_pdf replacements
  simp only [List.foldl_cons, List.foldl_nil]
  rw [pyReplace_skip hb1 h, pyReplace_skip hb2 h, pyReplace_skip hb3 h,
    pyReplace_self, pyReplace_skip hb5 h, pyReplace_skip hb6 h]
  apply List.filter_eq_self.mpr
  intro c hc
  have := h c hc
  simp only [decide_eq_true_eq]
  omega

/-- C9 witness: the statement instantiated at a printable ASCII string. -/
theorem C9_clean_idempotent_witness :
    (∀ c ∈ "Hello, World!".data, 32 ≤ c.toNat ∧ c.toNat ≤ 126) ∧
    clean_text_for_pdf "Hello, World!".data = "Hello, World!".data :=
  ⟨by decide, C9_clean_idempotent "Hello, World!".data (by decide)⟩

/-- C10: a split fragment whose stripped text contains no line break (for
example a trailing heading with nothing beneath it, or a one-line body)
contributes no flowable at all to the story: its one-part split fails the
two-part test and the fragment is skipped. -/
theorem C10_single_line_fragment (content frag : PyStr)
    (_hmem : frag ∈ splitSec content) (h2 : '\n' ∉ pyStrip frag) :
    sectionFlowables frag = [] := by
  unfold sectionFlowables
  by_cases hs : pyStrip frag = []
  · rw [if_pos hs]
  · rw [if_neg hs, pySplitOnce_no_sep h2]

/-- C10 witness: the statement instantiated at a trailing heading fragment
with no content line. -/
theorem C10_single_line_fragment_witness :
    "Tail".data ∈ splitSec "x\n## Tail".data ∧
    sectionFlowables "Tail".data = [] :=
  ⟨by decide,
   C10_single_line_fragment "x\n## Tail".data "Tail".data (by decide) (by decide)⟩

end AICV
